import Mathlib

/-!
Verification of the xcresulttool OpenAPI generator
(`src/xcresulttool_openapi_generator.py`).

The program is a single pure transformation from a parsed
type-description document (Apple's `xcresulttool format_description`)
to an OpenAPI schema document.  We embed it shallowly:

* JSON values are an inductive `Json`; Python dicts become association
  lists whose insertion-order semantics is modelled by `dictInsert`
  (assignment to an existing key updates in place, otherwise appends).
* `dataType`, `schemaType`, `openAPISpec` and `gen_openapi` mirror the
  Python functions of the same names.  Python `assert` failures become
  `Option.none` (an `AssertionError` aborts the whole run, so the
  transformer as a whole returns `none` whenever any assert fires).
* Python truthiness on strings (`if supertype:`, `assert wrapped`)
  is modelled explicitly: a string is truthy iff it is nonempty, and
  `dict.get` yields `Option`.
-/

/-- A JSON value.  Objects carry their key order (Python dicts preserve
insertion order, and `json.dump` serializes in that order). -/
inductive Json where
  | str : String → Json
  | int : Int → Json
  | bool : Bool → Json
  | arr : List Json → Json
  | obj : List (String × Json) → Json

/-- One entry of the input document's `properties` array, with the
fields the Python code reads: `prop['name']`, `prop['type']`,
`prop.get('wrappedType')`, `prop['isOptional']`. -/
structure PropertyDescriptor where
  name : String
  type : String
  wrappedType : Option String
  isOptional : Bool
deriving DecidableEq, Repr

/-- The input `type` object: `t['type']['name']` and
`t['type'].get('supertype')`. -/
structure TypeInfo where
  name : String
  supertype : Option String
deriving DecidableEq, Repr

/-- One entry of the input document's `types` array. -/
structure TypeDescriptor where
  kind : String
  type : TypeInfo
  properties : List PropertyDescriptor
deriving DecidableEq, Repr

/-- The input document's `version` object. -/
structure DocVersion where
  major : Int
  minor : Int
deriving DecidableEq, Repr

/-- The parsed input document (`json.load` result), with the fields
`gen_openapi` reads: `name`, `version`, `signature`, `types`. -/
structure Document where
  name : String
  version : DocVersion
  signature : String
  types : List TypeDescriptor
deriving DecidableEq, Repr

/-- Python dict assignment `m[k] = v` on an insertion-ordered dict:
if `k` is already a key its value is replaced in place, otherwise the
pair is appended at the end. -/
def dictInsert (m : List (String × Json)) (k : String) (v : Json) :
    List (String × Json) :=
  if m.any (fun p => p.1 == k) then
    m.map (fun p => if p.1 == k then (k, v) else p)
  else
    m ++ [(k, v)]

/-- Python dict lookup `m[k]` (first matching key; our dicts never hold
duplicate keys since they are built only through `dictInsert`). -/
def dictLookup (m : List (String × Json)) (k : String) : Option Json :=
  match m with
  | [] => none
  | (k2, v) :: rest => if k2 = k then some v else dictLookup rest k

/-- `dataType` of the source: classify a property type name into a
JSON-schema property.  Exhaustive, case-sensitive `match`, with the
default case producing a `$ref` into `#/components/schemas/`. -/
def dataType (t : String) : Json :=
  if t = "Bool" then Json.obj [("type", Json.str "boolean")]
  else if t = "Int" then Json.obj [("type", Json.str "integer")]
  else if t = "Double" then
    Json.obj [("type", Json.str "number"), ("format", Json.str "double")]
  else if t = "String" then Json.obj [("type", Json.str "string")]
  else if t = "Date" then
    Json.obj [("type", Json.str "string"), ("format", Json.str "date-time")]
  else if t = "SchemaSerializable" then Json.obj []
  else Json.obj [("$ref", Json.str ("#/components/schemas/" ++ t))]

/-- The body of the property loop in `schemaType`, for one property:
returns the property's schema together with the flag saying whether the
property name is appended to `required_properties`; `none` models an
`AssertionError`.  Python's `assert prop_wrapped_type` fails both when
the key is absent (`None`) and when the string is empty (falsy). -/
def translateProp (prop : PropertyDescriptor) : Option (Json × Bool) :=
  if prop.type = "Array" then
    match prop.wrappedType with
    | some w =>
        if w = "" then none
        else some (Json.obj [("type", Json.str "array"), ("items", dataType w)], false)
    | none => none
  else if prop.type = "Optional" then
    match prop.wrappedType with
    | some w =>
        if prop.isOptional ∧ w ≠ "" then some (dataType w, true) else none
    | none => none
  else
    some (dataType prop.type, false)

/-- The property loop of `schemaType`: threads the `properties` dict and
the `required_properties` list through the list of property
descriptors, aborting (`none`) as soon as one property asserts. -/
def translatePropsGo (ps : List (String × Json)) (req : List String) :
    List PropertyDescriptor → Option (List (String × Json) × List String)
  | [] => some (ps, req)
  | prop :: rest =>
    match translateProp prop with
    | none => none
    | some (s, isReq) =>
        translatePropsGo (dictInsert ps prop.name s)
          (if isReq then req ++ [prop.name] else req) rest

/-- Run the property loop from the empty dict and empty required list,
as `schemaType` does. -/
def translateProps (props : List PropertyDescriptor) :
    Option (List (String × Json) × List String) :=
  translatePropsGo [] [] props

/-- The `$ref` node appended for a truthy supertype (`if supertype:`).
Python truthiness: `None` and the empty string are falsy. -/
def supertypeRef (s : Option String) : List Json :=
  match s with
  | some st =>
      if st = "" then []
      else [Json.obj [("$ref", Json.str ("#/components/schemas/" ++ st))]]
  | none => []

/-- The object schema appended at the end of `schemaType`:
`{'type': kind, 'properties': ..., 'additionalProperties': False,
'required': ...}` (at this point `kind` is always `"object"` because of
the preceding assert). -/
def objectSchema (kind : String) (ps : List (String × Json))
    (req : List String) : Json :=
  Json.obj [("type", Json.str kind),
            ("properties", Json.obj ps),
            ("additionalProperties", Json.bool false),
            ("required", Json.arr (req.map Json.str))]

/-- `schemaType` of the source: translate one `TypeDescriptor` into its
title and the list of schema nodes (`[]` for value/array kinds, one or
two nodes for object kinds); `none` models an `AssertionError`
(`assert kind == 'object'` or a property assert). -/
def schemaType (t : TypeDescriptor) : Option (String × List Json) :=
  let title := t.type.name
  if t.kind = "value" ∨ t.kind = "array" then some (title, [])
  else if t.kind = "object" then
    match translateProps t.properties with
    | none => none
    | some (ps, req) =>
        some (title, supertypeRef t.type.supertype ++ [objectSchema t.kind ps req])
  else none

/-- The body of the loop in `gen_openapi`: skip an empty node list, bind
a single node directly, wrap two or more nodes in `allOf`. -/
def addSchema (m : List (String × Json)) (title : String)
    (schemas : List Json) : List (String × Json) :=
  match schemas with
  | [] => m
  | [s] => dictInsert m title s
  | s1 :: s2 :: rest =>
      dictInsert m title (Json.obj [("allOf", Json.arr (s1 :: s2 :: rest))])

/-- The loop of `gen_openapi` over `xcrt_desc['types']`, accumulating
`all_schemas`; `none` models an abort from `schemaType`. -/
def genSchemasGo (m : List (String × Json)) :
    List TypeDescriptor → Option (List (String × Json))
  | [] => some m
  | t :: rest =>
    match schemaType t with
    | none => none
    | some (title, schemas) => genSchemasGo (addSchema m title schemas) rest

/-- `all_schemas` built from the empty dict. -/
def gen_schemas (types : List TypeDescriptor) :
    Option (List (String × Json)) :=
  genSchemasGo [] types

/-- `openAPISpec` of the source: assemble the final document.
`info.version` is the f-string `'{major}.{minor}'`. -/
def openAPISpec (openapi_version : String) (title : String)
    (version : DocVersion) (signature : String)
    (schemas : List (String × Json)) : Json :=
  Json.obj
    [("openapi", Json.str openapi_version),
     ("info", Json.obj
        [("title", Json.str title),
         ("version", Json.str (toString version.major ++ "." ++ toString version.minor)),
         ("x-signature", Json.str signature)]),
     ("components", Json.obj [("schemas", Json.obj schemas)])]

/-- `gen_openapi` of the source, on an already parsed document: run the
types loop, then assemble; any assert aborts the whole run with no
output. -/
def gen_openapi (doc : Document) (openapi_version : String) : Option Json :=
  match gen_schemas doc.types with
  | none => none
  | some m =>
      some (openAPISpec openapi_version doc.name doc.version doc.signature m)

/-- The property schema produced for `prop` when `translateProp`
succeeds (dummy value otherwise); proof-side accessor. -/
def propSchemaVal (prop : PropertyDescriptor) : Json :=
  match translateProp prop with
  | some (s, _) => s
  | none => Json.obj []

/-- Whether `prop`'s name is appended to `required_properties` when
`translateProp` succeeds (false otherwise); proof-side accessor. -/
def propIsReq (prop : PropertyDescriptor) : Bool :=
  match translateProp prop with
  | some (_, b) => b
  | none => false

/-! ### Dictionary lemmas -/

theorem dictInsert_of_notMem (m : List (String × Json)) (k : String) (v : Json)
    (h : k ∉ m.map Prod.fst) : dictInsert m k v = m ++ [(k, v)] := by
  have hany : m.any (fun p => p.1 == k) = false := by
    rw [List.any_eq_false]
    intro p hp
    simp only [beq_iff_eq]
    intro he
    exact h (he ▸ List.mem_map_of_mem Prod.fst hp)
  simp [dictInsert, hany]

theorem dictLookup_append_of_notMem (m1 m2 : List (String × Json)) (k : String)
    (h : k ∉ m1.map Prod.fst) :
    dictLookup (m1 ++ m2) k = dictLookup m2 k := by
  induction m1 with
  | nil => rfl
  | cons p rest ih =>
      simp only [List.map_cons, List.mem_cons] at h
      push_neg at h
      simp only [List.cons_append, dictLookup]
      rw [if_neg (fun he => h.1 he.symm)]
      exact ih h.2

theorem dictLookup_map_of_mem {α : Type} (f : α → String) (g : α → Json)
    (l : List α) (a : α) (hnd : (l.map f).Nodup) (ha : a ∈ l) :
    dictLookup (l.map fun x => (f x, g x)) (f a) = some (g a) := by
  induction l with
  | nil => cases ha
  | cons x rest ih =>
      simp only [List.map_cons, List.nodup_cons] at hnd
      rcases List.mem_cons.mp ha with h | h
      · subst h
        simp [dictLookup]
      · have hne : f x ≠ f a := fun he => hnd.1 (he ▸ List.mem_map_of_mem f h)
        simp only [List.map_cons, dictLookup]
        rw [if_neg hne]
        exact ih hnd.2 h

/-! ### Property-loop lemmas -/

theorem translateProp_eq_of_success (prop : PropertyDescriptor) (out : Json × Bool)
    (h : translateProp prop = some out) :
    out = (propSchemaVal prop, propIsReq prop) := by
  simp [propSchemaVal, propIsReq, h]

theorem translatePropsGo_none (props : List PropertyDescriptor)
    (p : PropertyDescriptor) (hp : p ∈ props) (h : translateProp p = none) :
    ∀ ps req, translatePropsGo ps req props = none := by
  induction props with
  | nil => cases hp
  | cons q rest ih =>
      intro ps req
      rcases List.mem_cons.mp hp with hq | hq
      · subst hq
        simp [translatePropsGo, h]
      · cases hTq : translateProp q with
        | none => simp [translatePropsGo, hTq]
        | some sb =>
            obtain ⟨s, isReq⟩ := sb
            simp only [translatePropsGo, hTq]
            exact ih hq _ _

theorem translatePropsGo_success (props : List PropertyDescriptor) :
    ∀ ps req out, translatePropsGo ps req props = some out →
    ∀ p ∈ props, translateProp p = some (propSchemaVal p, propIsReq p) := by
  induction props with
  | nil =>
      intro _ _ _ _ p hp
      cases hp
  | cons q rest ih =>
      intro ps req out h p hp
      cases hTq : translateProp q with
      | none => simp [translatePropsGo, hTq] at h
      | some sb =>
          obtain ⟨s, isReq⟩ := sb
          simp only [translatePropsGo, hTq] at h
          rcases List.mem_cons.mp hp with hq | hq
          · subst hq
            rw [hTq]
            exact congrArg some (translateProp_eq_of_success p (s, isReq) hTq)
          · exact ih _ _ _ h p hq

theorem translatePropsGo_req (props : List PropertyDescriptor) :
    ∀ ps req out, translatePropsGo ps req props = some out →
    out.2 = req ++ (props.filter (fun p => propIsReq p)).map PropertyDescriptor.name := by
  induction props with
  | nil =>
      intro ps req out h
      simp only [translatePropsGo, Option.some.injEq] at h
      simp [← h]
  | cons q rest ih =>
      intro ps req out h
      cases hTq : translateProp q with
      | none => simp [translatePropsGo, hTq] at h
      | some sb =>
          obtain ⟨s, isReq⟩ := sb
          simp only [translatePropsGo, hTq] at h
          have hb : propIsReq q = isReq := by simp [propIsReq, hTq]
          rw [ih _ _ _ h]
          cases hcr : isReq with
          | true => simp [List.filter_cons, hb, hcr, List.append_assoc]
          | false => simp [List.filter_cons, hb, hcr]

theorem translatePropsGo_props (props : List PropertyDescriptor) :
    ∀ ps req out, (props.map PropertyDescriptor.name).Nodup →
    (∀ p ∈ props, p.name ∉ ps.map Prod.fst) →
    translatePropsGo ps req props = some out →
    out.1 = ps ++ props.map (fun p => (p.name, propSchemaVal p)) := by
  induction props with
  | nil =>
      intro ps req out _ _ h
      simp only [translatePropsGo, Option.some.injEq] at h
      simp [← h]
  | cons q rest ih =>
      intro ps req out hnd hkeys h
      cases hTq : translateProp q with
      | none => simp [translatePropsGo, hTq] at h
      | some sb =>
          obtain ⟨s, isReq⟩ := sb
          simp only [translatePropsGo, hTq] at h
          have hs : propSchemaVal q = s := by simp [propSchemaVal, hTq]
          have hqk : q.name ∉ ps.map Prod.fst := hkeys q (List.mem_cons_self q rest)
          rw [dictInsert_of_notMem ps q.name s hqk] at h
          simp only [List.map_cons, List.nodup_cons] at hnd
          have hkeys2 : ∀ p ∈ rest, p.name ∉ (ps ++ [(q.name, s)]).map Prod.fst := by
            intro p hp
            simp only [List.map_append, List.mem_append, List.map_cons, List.map_nil,
              List.mem_singleton]
            rintro (hin | hin)
            · exact hkeys p (List.mem_cons_of_mem q hp) hin
            · exact hnd.1 (hin ▸ List.mem_map_of_mem PropertyDescriptor.name hp)
          rw [ih _ _ _ hnd.2 hkeys2 h, ← hs]
          simp [List.append_assoc]

/-! ### Types-loop lemmas -/

theorem addSchema_keys (m : List (String × Json)) (title : String)
    (s : Json) (rest : List Json) (h : title ∉ m.map Prod.fst) :
    (addSchema m title (s :: rest)).map Prod.fst = m.map Prod.fst ++ [title] := by
  cases rest with
  | nil => simp [addSchema, dictInsert_of_notMem m title s h]
  | cons s2 r => simp [addSchema, dictInsert_of_notMem m title _ h]

theorem schemaType_title (t : TypeDescriptor) (title : String) (schemas : List Json)
    (h : schemaType t = some (title, schemas)) : title = t.type.name := by
  simp only [schemaType] at h
  split at h
  · simp only [Option.some.injEq, Prod.mk.injEq] at h
    exact h.1.symm
  · split at h
    · split at h
      · cases h
      · simp only [Option.some.injEq, Prod.mk.injEq] at h
        exact h.1.symm
    · cases h

theorem schemaType_cons_object (t : TypeDescriptor) (title : String)
    (s : Json) (rest : List Json)
    (h : schemaType t = some (title, s :: rest)) : t.kind = "object" := by
  by_cases hva : t.kind = "value" ∨ t.kind = "array"
  · simp [schemaType, hva] at h
  · by_cases hobj : t.kind = "object"
    · exact hobj
    · simp [schemaType, hva, hobj] at h

theorem genSchemasGo_none (types : List TypeDescriptor)
    (t : TypeDescriptor) (ht : t ∈ types) (h : schemaType t = none) :
    ∀ acc, genSchemasGo acc types = none := by
  induction types with
  | nil => cases ht
  | cons q rest ih =>
      intro acc
      rcases List.mem_cons.mp ht with hq | hq
      · subst hq
        simp [genSchemasGo, h]
      · cases hSq : schemaType q with
        | none => simp [genSchemasGo, hSq]
        | some pr =>
            obtain ⟨title, schemas⟩ := pr
            simp only [genSchemasGo, hSq]
            exact ih hq _

theorem genSchemasGo_keys (types : List TypeDescriptor) :
    ∀ acc out, ((types.map fun t => t.type.name).Nodup) →
    (∀ t ∈ types, t.type.name ∉ acc.map Prod.fst) →
    genSchemasGo acc types = some out →
    out.map Prod.fst = acc.map Prod.fst ++
      ((types.filter fun t => !(t.kind == "value" || t.kind == "array")).map
        fun t => t.type.name) := by
  induction types with
  | nil =>
      intro acc out _ _ h
      simp only [genSchemasGo, Option.some.injEq] at h
      simp [← h]
  | cons t rest ih =>
      intro acc out hnd hkeys h
      simp only [List.map_cons, List.nodup_cons] at hnd
      cases hSt : schemaType t with
      | none => simp [genSchemasGo, hSt] at h
      | some pr =>
          obtain ⟨title, schemas⟩ := pr
          have htitle : title = t.type.name := schemaType_title t title schemas hSt
          simp only [genSchemasGo, hSt] at h
          cases hsc : schemas with
          | nil =>
              subst hsc
              have hva : t.kind = "value" ∨ t.kind = "array" := by
                by_contra hva
                simp only [schemaType] at hSt
                rw [if_neg hva] at hSt
                split at hSt
                · split at hSt
                  · cases hSt
                  · simp only [Option.some.injEq, Prod.mk.injEq] at hSt
                    exact (List.append_ne_nil_of_right_ne_nil _ (by simp)) hSt.2
                · cases hSt
              have hacc : addSchema acc title [] = acc := rfl
              rw [hacc] at h
              rw [ih acc out hnd.2 (fun q hq => hkeys q (List.mem_cons_of_mem t hq)) h]
              rw [List.filter_cons]
              have hcond : ¬((t.kind == "value" || t.kind == "array") = false) := by
                rcases hva with hv | hv <;> simp [hv]
              rcases Bool.eq_false_or_eq_true (t.kind == "value" || t.kind == "array")
                with hb | hb
              · simp [hb]
              · exact absurd hb hcond
          | cons s stail =>
              subst hsc
              have hobj : t.kind = "object" := schemaType_cons_object t title s stail hSt
              have htk : title ∉ acc.map Prod.fst :=
                htitle ▸ hkeys t (List.mem_cons_self t rest)
              have hkeys2 : ∀ q ∈ rest,
                  q.type.name ∉ (addSchema acc title (s :: stail)).map Prod.fst := by
                intro q hq
                rw [addSchema_keys acc title s stail htk]
                simp only [List.mem_append, List.mem_singleton]
                rintro (hin | hin)
                · exact hkeys q (List.mem_cons_of_mem t hq) hin
                · rw [htitle] at hin
                  exact hnd.1 (hin ▸ List.mem_map_of_mem (fun q => q.type.name) hq)
              rw [ih _ out hnd.2 hkeys2 h, addSchema_keys acc title s stail htk,
                htitle]
              rw [List.filter_cons]
              have hb : (t.kind == "value" || t.kind == "array") = false := by
                simp [hobj]
              simp [hb, List.append_assoc]

theorem dictInsert_keys_subset (m : List (String × Json)) (k k2 : String) (v : Json)
    (h : k2 ∈ (dictInsert m k v).map Prod.fst) :
    k2 ∈ m.map Prod.fst ∨ k2 = k := by
  unfold dictInsert at h
  split at h
  · simp only [List.map_map, List.mem_map, Function.comp] at h
    obtain ⟨p, hp, he⟩ := h
    rcases Bool.eq_false_or_eq_true (p.1 == k) with hpk | hpk
    · right
      simp only [hpk, if_true] at he
      exact he.symm
    · left
      simp only [hpk, if_false, Bool.false_eq_true] at he
      exact he ▸ List.mem_map_of_mem Prod.fst hp
  · rw [List.map_append] at h
    rcases List.mem_append.mp h with hin | hin
    · left; exact hin
    · right; simpa using hin

theorem addSchema_keys_subset (m : List (String × Json)) (title k : String)
    (schemas : List Json) (h : k ∈ (addSchema m title schemas).map Prod.fst) :
    k ∈ m.map Prod.fst ∨ k = title := by
  cases schemas with
  | nil => left; exact h
  | cons s stail =>
      cases stail with
      | nil => exact dictInsert_keys_subset m title k s h
      | cons s2 r => exact dictInsert_keys_subset m title k _ h

theorem genSchemasGo_keys_subset (types : List TypeDescriptor) :
    ∀ acc out, genSchemasGo acc types = some out →
    ∀ k, k ∈ out.map Prod.fst →
      k ∈ acc.map Prod.fst ∨
      ∃ t ∈ types, t.type.name = k ∧ t.kind = "object" := by
  induction types with
  | nil =>
      intro acc out h k hk
      simp only [genSchemasGo, Option.some.injEq] at h
      subst h
      left; exact hk
  | cons t rest ih =>
      intro acc out h k hk
      cases hSt : schemaType t with
      | none => simp [genSchemasGo, hSt] at h
      | some pr =>
          obtain ⟨title, schemas⟩ := pr
          simp only [genSchemasGo, hSt] at h
          cases hsc : schemas with
          | nil =>
              subst hsc
              rcases ih _ _ h k hk with hin | ⟨q, hq, hqn, hqk⟩
              · left; exact hin
              · right; exact ⟨q, List.mem_cons_of_mem t hq, hqn, hqk⟩
          | cons s stail =>
              subst hsc
              have hobj : t.kind = "object" := schemaType_cons_object t title s stail hSt
              have htitle : title = t.type.name := schemaType_title t title _ hSt
              rcases ih _ _ h k hk with hin | ⟨q, hq, hqn, hqk⟩
              · rcases addSchema_keys_subset acc title k _ hin with hin2 | hk2
                · left; exact hin2
                · right
                  exact ⟨t, List.mem_cons_self t rest, htitle ▸ hk2.symm, hobj⟩
              · right; exact ⟨q, List.mem_cons_of_mem t hq, hqn, hqk⟩

/-! ### Claims -/

/-- C4: the property-type classification `dataType` maps, case-sensitively,
`Bool` to a boolean schema, `Int` to an integer schema, `Double` to a number
schema with format `double`, `String` to a string schema, `Date` to a string
schema with format `date-time`, `SchemaSerializable` to the empty schema,
and every other string `t` to the reference
`{"$ref": "#/components/schemas/t"}` with `t` copied exactly. -/
theorem c4_dataType_classification :
    dataType "Bool" = Json.obj [("type", Json.str "boolean")] ∧
    dataType "Int" = Json.obj [("type", Json.str "integer")] ∧
    dataType "Double" =
      Json.obj [("type", Json.str "number"), ("format", Json.str "double")] ∧
    dataType "String" = Json.obj [("type", Json.str "string")] ∧
    dataType "Date" =
      Json.obj [("type", Json.str "string"), ("format", Json.str "date-time")] ∧
    dataType "SchemaSerializable" = Json.obj [] ∧
    ∀ t : String,
      t ∉ ["Bool", "Int", "Double", "String", "Date", "SchemaSerializable"] →
      dataType t = Json.obj [("$ref", Json.str ("#/components/schemas/" ++ t))] := by
  refine ⟨rfl, rfl, rfl, rfl, rfl, rfl, ?_⟩
  intro t ht
  simp only [List.mem_cons, List.not_mem_nil, or_false, not_or] at ht
  obtain ⟨h1, h2, h3, h4, h5, h6⟩ := ht
  simp [dataType, h1, h2, h3, h4, h5, h6]

/-- Witness for C4: a non-built-in type name becomes an exact reference. -/
theorem c4_dataType_classification_witness :
    dataType "ActionResult" =
      Json.obj [("$ref", Json.str ("#/components/schemas/" ++ "ActionResult"))] :=
  c4_dataType_classification.2.2.2.2.2.2 "ActionResult" (by decide)

/-- C6: for every input document, the assembled output has `info.title` equal
to the document's name, `info.version` equal to the string `major.minor`
formed from the two version integers, `x-signature` equal to the document's
signature, and the top-level `openapi` field equal to the caller-supplied
version string, never derived from the input. -/
theorem c6_document_assembly (doc : Document) (v : String)
    (m : List (String × Json)) (h : gen_schemas doc.types = some m) :
    gen_openapi doc v = some (Json.obj
      [("openapi", Json.str v),
       ("info", Json.obj
          [("title", Json.str doc.name),
           ("version", Json.str
              (toString doc.version.major ++ "." ++ toString doc.version.minor)),
           ("x-signature", Json.str doc.signature)]),
       ("components", Json.obj [("schemas", Json.obj m)])]) := by
  simp [gen_openapi, h, openAPISpec]

/-- Witness for C6: a document named `X`, version 3.14, signature `abc`,
with no types; notably `version {major:3, minor:14}` yields the string
`"3.14"` with no digit alteration. -/
theorem c6_document_assembly_witness :
    gen_openapi ⟨"X", ⟨3, 14⟩, "abc", []⟩ "3.1.0" = some (Json.obj
      [("openapi", Json.str "3.1.0"),
       ("info", Json.obj
          [("title", Json.str "X"),
           ("version", Json.str "3.14"),
           ("x-signature", Json.str "abc")]),
       ("components", Json.obj [("schemas", Json.obj [])])]) :=
  c6_document_assembly ⟨"X", ⟨3, 14⟩, "abc", []⟩ "3.1.0" [] rfl

/-- C9: the transformer is deterministic — it is a pure function of the
parsed input document and the caller-supplied version string, so equal
inputs produce equal outputs. -/
theorem c9_deterministic (d1 d2 : Document) (v1 v2 : String)
    (hd : d1 = d2) (hv : v1 = v2) : gen_openapi d1 v1 = gen_openapi d2 v2 := by
  rw [hd, hv]

/-- Witness for C9: two runs on the same concrete document agree. -/
theorem c9_deterministic_witness :
    gen_openapi ⟨"X", ⟨1, 0⟩, "abc", []⟩ "3.1.0" =
      gen_openapi ⟨"X", ⟨1, 0⟩, "abc", []⟩ "3.1.0" :=
  c9_deterministic ⟨"X", ⟨1, 0⟩, "abc", []⟩ ⟨"X", ⟨1, 0⟩, "abc", []⟩
    "3.1.0" "3.1.0" rfl rfl

/-- C10: an object-kind type whose `supertype` key is present but holds the
empty string is treated as having no supertype: no supertype reference is
appended (the code tests truthiness of the value, not presence of the key),
so the definitions entry is the bare object schema with no `allOf`. -/
theorem c10_empty_supertype (t : TypeDescriptor) (hk : t.kind = "object")
    (hsup : t.type.supertype = some "")
    (ps : List (String × Json)) (req : List String)
    (htp : translateProps t.properties = some (ps, req)) :
    schemaType t = some (t.type.name, [objectSchema "object" ps req]) ∧
    ∀ m, addSchema m t.type.name [objectSchema "object" ps req] =
      dictInsert m t.type.name (objectSchema "object" ps req) := by
  constructor
  · simp [schemaType, hk, htp, supertypeRef, hsup]
  · intro m
    rfl

/-- Witness for C10: a concrete object type with `supertype` set to the
empty string produces a single bare object schema. -/
theorem c10_empty_supertype_witness :
    schemaType ⟨"object", ⟨"Bar", some ""⟩, []⟩ =
      some ("Bar", [objectSchema "object" [] []]) ∧
    addSchema [] "Bar" [objectSchema "object" [] []] =
      dictInsert [] "Bar" (objectSchema "object" [] []) := by
  have h := c10_empty_supertype ⟨"object", ⟨"Bar", some ""⟩, []⟩ rfl rfl [] [] rfl
  exact ⟨h.1, h.2 []⟩

/-- C3: for every type descriptor of kind `value` or `array` the per-type
translation yields an empty node list, the assembly step adds nothing, and
whenever every type bearing that name is of kind `value` or `array`, the
name does not occur among the keys of the produced `components.schemas`. -/
theorem c3_value_array_skipped (t : TypeDescriptor)
    (hk : t.kind = "value" ∨ t.kind = "array") :
    schemaType t = some (t.type.name, []) ∧
    (∀ m, addSchema m t.type.name [] = m) ∧
    (∀ types m, gen_schemas types = some m →
      (∀ q ∈ types, q.type.name = t.type.name →
        q.kind = "value" ∨ q.kind = "array") →
      t.type.name ∉ m.map Prod.fst) := by
  refine ⟨?_, fun m => rfl, ?_⟩
  · simp only [schemaType]
    rw [if_pos hk]
  · intro types m hgen hall hmem
    rcases genSchemasGo_keys_subset types [] m hgen t.type.name hmem
      with hin | ⟨q, hq, hqn, hqk⟩
    · simp at hin
    · rcases hall q hq hqn with hv | hv <;> rw [hqk] at hv <;>
        exact absurd hv (by decide)

/-- Witness for C3: a concrete value-kind type `Baz` yields no nodes, the
assembly step is the identity, and on a document containing value-kind
`Baz` and object-kind `Foo` the produced schemas hold no `Baz` key. -/
theorem c3_value_array_skipped_witness :
    schemaType ⟨"value", ⟨"Baz", none⟩, []⟩ = some ("Baz", []) ∧
    addSchema [] "Baz" [] = ([] : List (String × Json)) ∧
    "Baz" ∉ ([("Foo", objectSchema "object" [] [])].map Prod.fst) := by
  have h := c3_value_array_skipped ⟨"value", ⟨"Baz", none⟩, []⟩ (Or.inl rfl)
  exact ⟨h.1, h.2.1 [],
    h.2.2 [⟨"value", ⟨"Baz", none⟩, []⟩, ⟨"object", ⟨"Foo", none⟩, []⟩]
      [("Foo", objectSchema "object" [] [])] rfl (by decide)⟩

/-- C1: an `Optional`-typed property (wrappedType present, isOptional true)
of an object-kind type is mapped to `dataType wrappedType` directly — no
wrapper — in the object's properties dict, and its name appears in the
object schema's required list (the literal, counter-intuitive polarity of
the source). -/
theorem c1_optional_required (t : TypeDescriptor) (p : PropertyDescriptor)
    (w : String) (hk : t.kind = "object") (hmem : p ∈ t.properties)
    (hnd : (t.properties.map PropertyDescriptor.name).Nodup)
    (htype : p.type = "Optional") (hw : p.wrappedType = some w)
    (hopt : p.isOptional = true)
    (ps : List (String × Json)) (req : List String)
    (htp : translateProps t.properties = some (ps, req)) :
    dictLookup ps p.name = some (dataType w) ∧ p.name ∈ req ∧
    schemaType t = some (t.type.name,
      supertypeRef t.type.supertype ++ [objectSchema "object" ps req]) := by
  have hsucc := translatePropsGo_success t.properties [] [] (ps, req) htp p hmem
  by_cases hw0 : w = ""
  · exfalso
    simp [translateProp, htype, hw, hopt, hw0] at hsucc
  · have hval : propSchemaVal p = dataType w ∧ propIsReq p = true := by
      simp only [translateProp, htype, hw, hopt] at hsucc
      simp [hw0] at hsucc
      exact ⟨hsucc.1.symm, hsucc.2⟩
    have hps : ps = t.properties.map (fun q => (q.name, propSchemaVal q)) := by
      have := translatePropsGo_props t.properties [] [] (ps, req) hnd
        (by simp) htp
      simpa using this
    have hreq : req =
        (t.properties.filter (fun q => propIsReq q)).map PropertyDescriptor.name := by
      have := translatePropsGo_req t.properties [] [] (ps, req) htp
      simpa using this
    refine ⟨?_, ?_, ?_⟩
    · rw [hps, ← hval.1]
      exact dictLookup_map_of_mem PropertyDescriptor.name propSchemaVal
        t.properties p hnd hmem
    · rw [hreq]
      exact List.mem_map_of_mem PropertyDescriptor.name
        (List.mem_filter.mpr ⟨hmem, hval.2⟩)
    · simp [schemaType, hk, htp]

/-- C5: an `Array`-typed property (wrappedType present) is mapped to the
schema `{"type": "array", "items": dataType wrappedType}` in the object's
properties dict, and its name is not added to the required list. -/
theorem c5_array_property (props : List PropertyDescriptor)
    (p : PropertyDescriptor) (w : String) (hmem : p ∈ props)
    (hnd : (props.map PropertyDescriptor.name).Nodup)
    (htype : p.type = "Array") (hw : p.wrappedType = some w)
    (ps : List (String × Json)) (req : List String)
    (htp : translateProps props = some (ps, req)) :
    dictLookup ps p.name =
      some (Json.obj [("type", Json.str "array"), ("items", dataType w)]) ∧
    p.name ∉ req := by
  have hsucc := translatePropsGo_success props [] [] (ps, req) htp p hmem
  by_cases hw0 : w = ""
  · exfalso
    simp [translateProp, htype, hw, hw0] at hsucc
  · have hval : propSchemaVal p =
        Json.obj [("type", Json.str "array"), ("items", dataType w)] ∧
        propIsReq p = false := by
      simp only [translateProp, htype, hw] at hsucc
      simp [hw0] at hsucc
      exact ⟨hsucc.1.symm, hsucc.2⟩
    have hps : ps = props.map (fun q => (q.name, propSchemaVal q)) := by
      have := translatePropsGo_props props [] [] (ps, req) hnd (by simp) htp
      simpa using this
    have hreq : req =
        (props.filter (fun q => propIsReq q)).map PropertyDescriptor.name := by
      have := translatePropsGo_req props [] [] (ps, req) htp
      simpa using this
    refine ⟨?_, ?_⟩
    · rw [hps, ← hval.1]
      exact dictLookup_map_of_mem PropertyDescriptor.name propSchemaVal
        props p hnd hmem
    · rw [hreq]
      intro hin
      simp only [List.mem_map] at hin
      obtain ⟨q, hqf, hqn⟩ := hin
      have hqp := List.mem_filter.mp hqf
      have heq : q = p := List.inj_on_of_nodup_map hnd hqp.1 hmem hqn
      rw [heq] at hqp
      rw [hval.2] at hqp
      exact absurd hqp.2 (by simp)

/-- Witness for C1: the spec's end-to-end example type `Foo` with a plain
`id : String` and an Optional `tag` wrapping `String`: `tag` maps to the
bare string schema and lands in `required`. -/
theorem c1_optional_required_witness :
    dictLookup [("id", Json.obj [("type", Json.str "string")]),
                ("tag", Json.obj [("type", Json.str "string")])] "tag" =
      some (dataType "String") ∧
    "tag" ∈ ["tag"] ∧
    schemaType ⟨"object", ⟨"Foo", none⟩,
        [⟨"id", "String", none, false⟩, ⟨"tag", "Optional", some "String", true⟩]⟩ =
      some ("Foo", supertypeRef none ++
        [objectSchema "object"
          [("id", Json.obj [("type", Json.str "string")]),
           ("tag", Json.obj [("type", Json.str "string")])] ["tag"]]) :=
  c1_optional_required
    ⟨"object", ⟨"Foo", none⟩,
      [⟨"id", "String", none, false⟩, ⟨"tag", "Optional", some "String", true⟩]⟩
    ⟨"tag", "Optional", some "String", true⟩ "String"
    rfl (by decide) (by decide) rfl rfl rfl
    [("id", Json.obj [("type", Json.str "string")]),
     ("tag", Json.obj [("type", Json.str "string")])] ["tag"] rfl

/-- Witness for C5: an Array property `items` wrapping `String` maps to
an array schema with string items and is not required. -/
theorem c5_array_property_witness :
    dictLookup [("items",
        Json.obj [("type", Json.str "array"), ("items", dataType "String")])]
      "items" =
      some (Json.obj [("type", Json.str "array"), ("items", dataType "String")]) ∧
    "items" ∉ ([] : List String) :=
  c5_array_property [⟨"items", "Array", some "String", false⟩]
    ⟨"items", "Array", some "String", false⟩ "String"
    (by decide) (by decide) rfl rfl
    [("items",
      Json.obj [("type", Json.str "array"), ("items", dataType "String")])]
    [] rfl

/-- When `translateProp` succeeds, the required flag is set exactly for
`Optional`-typed properties. -/
theorem translateProp_req_iff (q : PropertyDescriptor) (s : Json) (b : Bool)
    (h : translateProp q = some (s, b)) : b = (q.type == "Optional") := by
  by_cases ha : q.type = "Array"
  · have hne : (q.type == "Optional") = false := by simp [ha]
    rw [hne]
    cases hw : q.wrappedType with
    | none => simp [translateProp, ha, hw] at h
    | some w =>
        by_cases hw0 : w = ""
        · simp [translateProp, ha, hw, hw0] at h
        · simp [translateProp, ha, hw, hw0] at h
          exact h.2
  · by_cases ho : q.type = "Optional"
    · have hee : (q.type == "Optional") = true := by simp [ho]
      rw [hee]
      cases hw : q.wrappedType with
      | none => simp [translateProp, ha, ho, hw] at h
      | some w =>
          by_cases hcond : q.isOptional = true ∧ w ≠ ""
          · simp [translateProp, ha, ho, hw, hcond.1, hcond.2] at h
            exact h.2
          · exfalso
            simp [translateProp, ha, ho, hw] at h
            exact hcond h.1
    · have hne : (q.type == "Optional") = false := by simp [ho]
      rw [hne]
      simp [translateProp, ha, ho] at h
      exact h.2

/-- C2: every object-kind type yields an object schema with type literally
`"object"`, the translated properties, `additionalProperties: false` and the
accumulated required names; with a (non-empty, hence truthy) supertype the
definitions entry is `allOf` of exactly the supertype reference followed by
that object schema, and with no supertype the entry is the object schema
alone, not wrapped in `allOf`. -/
theorem c2_object_composition (t : TypeDescriptor) (hk : t.kind = "object")
    (ps : List (String × Json)) (req : List String)
    (htp : translateProps t.properties = some (ps, req)) :
    (∀ st, t.type.supertype = some st → st ≠ "" →
      schemaType t = some (t.type.name,
        [Json.obj [("$ref", Json.str ("#/components/schemas/" ++ st))],
         objectSchema "object" ps req]) ∧
      ∀ m, addSchema m t.type.name
          [Json.obj [("$ref", Json.str ("#/components/schemas/" ++ st))],
           objectSchema "object" ps req] =
        dictInsert m t.type.name (Json.obj [("allOf", Json.arr
          [Json.obj [("$ref", Json.str ("#/components/schemas/" ++ st))],
           objectSchema "object" ps req])])) ∧
    (t.type.supertype = none →
      schemaType t = some (t.type.name, [objectSchema "object" ps req]) ∧
      ∀ m, addSchema m t.type.name [objectSchema "object" ps req] =
        dictInsert m t.type.name (objectSchema "object" ps req)) := by
  constructor
  · intro st hst hne
    constructor
    · simp [schemaType, hk, htp, supertypeRef, hst, hne]
    · intro m
      rfl
  · intro hst
    constructor
    · simp [schemaType, hk, htp, supertypeRef, hst]
    · intro m
      rfl

/-- Witness for C2: the spec's supertype example — object `Bar` with
supertype `Foo` and no properties becomes `allOf` of the `Foo` reference
followed by the empty object schema, in that order. -/
theorem c2_object_composition_witness :
    schemaType ⟨"object", ⟨"Bar", some "Foo"⟩, []⟩ =
      some ("Bar",
        [Json.obj [("$ref", Json.str ("#/components/schemas/" ++ "Foo"))],
         objectSchema "object" [] []]) ∧
    addSchema [] "Bar"
        [Json.obj [("$ref", Json.str ("#/components/schemas/" ++ "Foo"))],
         objectSchema "object" [] []] =
      dictInsert [] "Bar" (Json.obj [("allOf", Json.arr
        [Json.obj [("$ref", Json.str ("#/components/schemas/" ++ "Foo"))],
         objectSchema "object" [] []])]) := by
  have h := (c2_object_composition ⟨"object", ⟨"Bar", some "Foo"⟩, []⟩
    rfl [] [] rfl).1 "Foo" rfl (by decide)
  exact ⟨h.1, h.2 []⟩

/-- C7: output orderings follow input orderings — the keys of the produced
schemas dict follow the order of the input types with the skipped
value/array-kind entries removed, and within one object the properties dict
follows the input property order while the required list holds the
`Optional`-typed property names in encounter order. -/
theorem c7_ordering :
    (∀ types m, ((types.map fun t => t.type.name).Nodup) →
      gen_schemas types = some m →
      m.map Prod.fst =
        ((types.filter fun t => !(t.kind == "value" || t.kind == "array")).map
          fun t => t.type.name)) ∧
    (∀ props ps req, (props.map PropertyDescriptor.name).Nodup →
      translateProps props = some (ps, req) →
      ps.map Prod.fst = props.map PropertyDescriptor.name ∧
      req = (props.filter fun p => p.type == "Optional").map
        PropertyDescriptor.name) := by
  constructor
  · intro types m hnd h
    have hk := genSchemasGo_keys types [] m hnd (by simp) h
    simpa using hk
  · intro props ps req hnd htp
    have hps := translatePropsGo_props props [] [] (ps, req) hnd (by simp) htp
    have hreq := translatePropsGo_req props [] [] (ps, req) htp
    have hsucc := translatePropsGo_success props [] [] (ps, req) htp
    constructor
    · have hps2 : ps = props.map (fun q => (q.name, propSchemaVal q)) := by
        simpa using hps
      rw [hps2, List.map_map]
      rfl
    · have hfe : props.filter (fun q => propIsReq q) =
          props.filter (fun q => q.type == "Optional") := by
        apply List.filter_congr
        intro q hq
        exact translateProp_req_iff q (propSchemaVal q) (propIsReq q) (hsucc q hq)
      have hreq2 : req =
          (props.filter (fun q => propIsReq q)).map PropertyDescriptor.name := by
        simpa using hreq
      rw [hreq2, hfe]

/-- Witness for C7: on a document with value-kind `Baz` then object-kind
`Foo` (whose properties are `id : String` then `tag : Optional<String>`),
the schema keys are exactly `["Foo"]` and inside `Foo` the property keys
are `["id", "tag"]` with required `["tag"]`. -/
theorem c7_ordering_witness :
    ([("Foo", objectSchema "object"
        [("id", Json.obj [("type", Json.str "string")]),
         ("tag", Json.obj [("type", Json.str "string")])] ["tag"])].map
      Prod.fst =
      ((([⟨"value", ⟨"Baz", none⟩, []⟩,
          ⟨"object", ⟨"Foo", none⟩,
            [⟨"id", "String", none, false⟩,
             ⟨"tag", "Optional", some "String", true⟩]⟩] :
          List TypeDescriptor).filter
        fun t => !(t.kind == "value" || t.kind == "array")).map
        fun t => t.type.name)) ∧
    (([("id", Json.obj [("type", Json.str "string")]),
       ("tag", Json.obj [("type", Json.str "string")])].map Prod.fst =
      ([⟨"id", "String", none, false⟩,
        ⟨"tag", "Optional", some "String", true⟩] :
        List PropertyDescriptor).map PropertyDescriptor.name) ∧
      ["tag"] =
        (([⟨"id", "String", none, false⟩,
           ⟨"tag", "Optional", some "String", true⟩] :
           List PropertyDescriptor).filter
          fun p => p.type == "Optional").map PropertyDescriptor.name) :=
  ⟨c7_ordering.1
      [⟨"value", ⟨"Baz", none⟩, []⟩,
       ⟨"object", ⟨"Foo", none⟩,
         [⟨"id", "String", none, false⟩,
          ⟨"tag", "Optional", some "String", true⟩]⟩]
      [("Foo", objectSchema "object"
        [("id", Json.obj [("type", Json.str "string")]),
         ("tag", Json.obj [("type", Json.str "string")])] ["tag"])]
      (by decide) rfl,
   c7_ordering.2
      [⟨"id", "String", none, false⟩, ⟨"tag", "Optional", some "String", true⟩]
      [("id", Json.obj [("type", Json.str "string")]),
       ("tag", Json.obj [("type", Json.str "string")])]
      ["tag"] (by decide) rfl⟩

/-- C8: the transformation fails, aborting the whole run with no output,
whenever an `Array`-typed property lacks a wrappedType, whenever an
`Optional`-typed property lacks a wrappedType or has isOptional not true,
or whenever a type's kind is none of `value`, `array`, `object`; the
failure propagates with no per-type recovery, so no schemas dict is
produced for any prefix of the input. -/
theorem c8_fail_fast :
    (∀ p : PropertyDescriptor, p.type = "Array" → p.wrappedType = none →
      translateProp p = none) ∧
    (∀ p : PropertyDescriptor, p.type = "Optional" →
      (p.wrappedType = none ∨ p.isOptional = false) →
      translateProp p = none) ∧
    (∀ t : TypeDescriptor, t.kind ≠ "value" → t.kind ≠ "array" →
      t.kind ≠ "object" → schemaType t = none) ∧
    (∀ (props : List PropertyDescriptor) (p : PropertyDescriptor),
      p ∈ props → translateProp p = none → translateProps props = none) ∧
    (∀ (doc : Document) (v : String) (t : TypeDescriptor), t ∈ doc.types →
      schemaType t = none → gen_openapi doc v = none) := by
  refine ⟨?_, ?_, ?_, ?_, ?_⟩
  · intro p h1 h2
    simp [translateProp, h1, h2]
  · intro p h1 h2
    rcases h2 with h2 | h2
    · simp [translateProp, h1, h2]
    · cases hw : p.wrappedType with
      | none => simp [translateProp, h1, hw]
      | some w => simp [translateProp, h1, hw, h2]
  · intro t h1 h2 h3
    simp only [schemaType]
    rw [if_neg (fun hva => hva.elim h1 h2), if_neg h3]
  · intro props p hp h
    exact translatePropsGo_none props p hp h [] []
  · intro doc v t ht h
    have hgen : gen_schemas doc.types = none := genSchemasGo_none doc.types t ht h []
    simp [gen_openapi, gen_schemas] at hgen ⊢
    rw [hgen]

/-- Witness for C8: a wrappedType-less Array property, a wrappedType-less
Optional property, an `enum`-kind type, a property list containing the bad
Array property, and a whole document containing the `enum` type all map to
`none`. -/
theorem c8_fail_fast_witness :
    translateProp ⟨"xs", "Array", none, false⟩ = none ∧
    translateProp ⟨"o", "Optional", none, true⟩ = none ∧
    schemaType ⟨"enum", ⟨"E", none⟩, []⟩ = none ∧
    translateProps [⟨"xs", "Array", none, false⟩] = none ∧
    gen_openapi ⟨"X", ⟨1, 0⟩, "abc", [⟨"enum", ⟨"E", none⟩, []⟩]⟩ "3.1.0" =
      none := by
  obtain ⟨h1, h2, h3, h4, h5⟩ := c8_fail_fast
  refine ⟨h1 _ rfl rfl, h2 _ rfl (Or.inl rfl),
    h3 _ (by decide) (by decide) (by decide),
    h4 _ ⟨"xs", "Array", none, false⟩ (by decide) (h1 _ rfl rfl),
    h5 _ "3.1.0" ⟨"enum", ⟨"E", none⟩, []⟩ (by decide)
      (h3 _ (by decide) (by decide) (by decide))⟩
